import Mathlib

set_option maxHeartbeats 1000000

/-!
Verification of the MJPEG relay core of the stream-vid-on-pc-from-droid-cam
repository, shallowly embedded from src/ef.py, src/fastapi_viewer.py,
src/cv.py and src/webrtc_viewer.py.

Bytes are modelled as natural numbers (values 0..255), byte strings as
lists of naturals, wall-clock times as exact rationals (Python floats in
the source; the claims under study are about control flow, comparisons and
exact interval arithmetic), and the external OpenCV codec functions as
parameters of the definitions that call them.
-/

/-- Python two-byte substring search: models buffer.find(m0m1, 0) on a
bytearray (src/ef.py:589-590, src/webrtc_viewer.py:80-84).  Returns the
least index i such that l[i] = m0 and l[i+1] = m1, if any. -/
def findPair (m0 m1 : Nat) : List Nat → Option Nat
  | [] => none
  | a :: rest =>
    if a = m0 ∧ rest.head? = some m1 then some 0
    else (findPair m0 m1 rest).map (· + 1)

/-- A found marker pair lies wholly inside the buffer. -/
theorem findPair_length_le {m0 m1 : Nat} :
    ∀ {l : List Nat} {i : Nat}, findPair m0 m1 l = some i → i + 2 ≤ l.length := by
  intro l
  induction l with
  | nil => intro i h; simp [findPair] at h
  | cons a rest ih =>
    intro i h
    rw [findPair] at h
    split at h
    · rename_i hc
      injection h with h
      subst h
      obtain ⟨-, hh⟩ := hc
      cases rest with
      | nil => simp at hh
      | cons b r => simp only [List.length_cons]; omega
    · obtain ⟨j, hj, rfl⟩ := Option.map_eq_some'.mp h
      have := ih hj
      simp only [List.length_cons]
      omega

/-- Marker search is stable under extending the buffer on the right: a hit
found in the current buffer is still the first hit after more chunks are
appended. -/
theorem findPair_append_some {m0 m1 : Nat} :
    ∀ {l : List Nat} {i : Nat}, findPair m0 m1 l = some i →
      ∀ t : List Nat, findPair m0 m1 (l ++ t) = some i := by
  intro l
  induction l with
  | nil => intro i h; simp [findPair] at h
  | cons a rest ih =>
    intro i h t
    rw [findPair] at h
    rw [List.cons_append, findPair]
    split at h
    · rename_i hc
      injection h with h
      subst h
      obtain ⟨ha, hh⟩ := hc
      cases rest with
      | nil => simp at hh
      | cons b r =>
        simp only [List.head?_cons, Option.some.injEq] at hh
        rw [if_pos ⟨ha, by simp [hh]⟩]
    · rename_i hc
      obtain ⟨j, hj, rfl⟩ := Option.map_eq_some'.mp h
      cases rest with
      | nil => simp [findPair] at hj
      | cons b r =>
        rw [if_neg (by simpa using hc), ih hj t]
        rfl

/-- A byte that is not the first marker byte shifts the search by one. -/
theorem findPair_cons_ne {m0 m1 a : Nat} (ha : a ≠ m0) (l : List Nat) :
    findPair m0 m1 (a :: l) = (findPair m0 m1 l).map (· + 1) := by
  rw [findPair, if_neg (by intro h; exact ha h.1)]

/-- A buffer none of whose bytes equals the first marker byte contains no
marker pair. -/
theorem findPair_eq_none {m0 m1 : Nat} :
    ∀ {l : List Nat}, (∀ x ∈ l, x ≠ m0) → findPair m0 m1 l = none := by
  intro l
  induction l with
  | nil => intro _; rfl
  | cons a rest ih =>
    intro h
    rw [findPair_cons_ne (h a (by simp)) rest,
        ih (fun x hx => h x (by simp [hx]))]
    rfl

/-- Prepending a block that contains no first-marker byte shifts the search
result by the block's length. -/
theorem findPair_append_left {m0 m1 : Nat} :
    ∀ (g : List Nat), (∀ x ∈ g, x ≠ m0) → ∀ l : List Nat,
      findPair m0 m1 (g ++ l) = (findPair m0 m1 l).map (· + g.length) := by
  intro g
  induction g with
  | nil => intro _ l; simp
  | cons a g ih =>
    intro h l
    rw [List.cons_append, findPair_cons_ne (h a (by simp)),
        ih (fun x hx => h x (by simp [hx])) l]
    cases findPair m0 m1 l <;> simp [Nat.add_assoc]

/-- A marker pair at the head of the buffer is found at index zero. -/
theorem findPair_head (m0 m1 : Nat) (l : List Nat) :
    findPair m0 m1 (m0 :: m1 :: l) = some 0 := by
  rw [findPair, if_pos ⟨rfl, rfl⟩]

/-- One round of the frame-extraction loop body in generate
(src/ef.py:588-594): locate the first SOI marker 0xFFD8, then the first
EOI marker 0xFFD9 starting strictly after the SOI; on success return the
frame buffer[start : eoi+2] together with the buffer with everything up to
and including the frame deleted.  Python's end = buffer.find(EOI, start+2)
is the absolute index s + 2 + e0 here. -/
def extractStep (buf : List Nat) : Option (List Nat × List Nat) :=
  match findPair 255 216 buf with
  | none => none
  | some s =>
    match findPair 255 217 (buf.drop (s + 2)) with
    | none => none
    | some e0 =>
      some ((buf.drop s).take (e0 + 4), buf.drop (s + 2 + e0 + 2))

/-- An extraction step strictly shrinks the buffer. -/
theorem extractStep_length_lt {buf f rest : List Nat}
    (h : extractStep buf = some (f, rest)) : rest.length < buf.length := by
  unfold extractStep at h
  split at h
  · exact absurd h (by simp)
  · rename_i s hs
    split at h
    · exact absurd h (by simp)
    · rename_i e0 he
      injection h with h
      injection h with _ h2
      subst h2
      have h1 := findPair_length_le hs
      have h2 := findPair_length_le he
      rw [List.length_drop] at h2 ⊢
      omega

/-- An extraction step commutes with appending further input: the frame and
the post-frame remainder are unchanged, the new input rides along. -/
theorem extractStep_append {buf f rest : List Nat}
    (h : extractStep buf = some (f, rest)) (t : List Nat) :
    extractStep (buf ++ t) = some (f, rest ++ t) := by
  unfold extractStep at h
  split at h
  · exact absurd h (by simp)
  · rename_i s hs
    split at h
    · exact absurd h (by simp)
    · rename_i e0 he
      injection h with h
      injection h with h1 h2
      have hb1 := findPair_length_le hs
      have hb2 := findPair_length_le he
      rw [List.length_drop] at hb2
      have hsoi : findPair 255 216 (buf ++ t) = some s := findPair_append_some hs t
      have hdrop1 : (buf ++ t).drop (s + 2) = buf.drop (s + 2) ++ t :=
        List.drop_append_of_le_length (by omega)
      have heoi : findPair 255 217 ((buf ++ t).drop (s + 2)) = some e0 := by
        rw [hdrop1]; exact findPair_append_some he t
      simp only [extractStep, hsoi, heoi]
      rw [List.drop_append_of_le_length (show s ≤ buf.length by omega)]
      rw [List.drop_append_of_le_length (show s + 2 + e0 + 2 ≤ buf.length by omega)]
      rw [List.take_append_of_le_length (by rw [List.length_drop]; omega)]
      rw [h1, h2]

theorem extractStep_nil : extractStep [] = none := rfl

/-- Fuelled version of the inner while-True loop of generate
(src/ef.py:588-636): repeatedly extract complete frames until none is
left.  The fuel only serves termination; buf.length steps always suffice
because each step strictly shrinks the buffer. -/
def extractAllFuel : Nat → List Nat → List (List Nat) × List Nat
  | 0, buf => ([], buf)
  | fuel + 1, buf =>
    match extractStep buf with
    | none => ([], buf)
    | some (f, rest) =>
      let p := extractAllFuel fuel rest
      (f :: p.1, p.2)

/-- The frame-extraction loop: all complete SOI..EOI frames of the buffer in
order, together with the residual buffer. -/
def extractAll (buf : List Nat) : List (List Nat) × List Nat :=
  extractAllFuel buf.length buf

theorem extractAllFuel_none {buf : List Nat} (h : extractStep buf = none) :
    ∀ fuel, extractAllFuel fuel buf = ([], buf) := by
  intro fuel
  cases fuel with
  | zero => rfl
  | succ n => rw [extractAllFuel, h]

/-- Any fuel at least the buffer length computes the same result. -/
theorem extractAllFuel_congr :
    ∀ (f1 f2 : Nat) (buf : List Nat), buf.length ≤ f1 → buf.length ≤ f2 →
      extractAllFuel f1 buf = extractAllFuel f2 buf := by
  intro f1
  induction f1 with
  | zero =>
    intro f2 buf h1 _
    have hb : buf = [] := List.length_eq_zero.mp (Nat.le_zero.mp h1)
    subst hb
    rw [extractAllFuel_none extractStep_nil, extractAllFuel_none extractStep_nil]
  | succ n ih =>
    intro f2 buf h1 h2
    cases hs : extractStep buf with
    | none => rw [extractAllFuel_none hs, extractAllFuel_none hs]
    | some p =>
      obtain ⟨f, rest⟩ := p
      have hlt := extractStep_length_lt hs
      cases f2 with
      | zero => omega
      | succ m =>
        simp only [extractAllFuel, hs]
        rw [ih m rest (by omega) (by omega)]

theorem extractAll_none {buf : List Nat} (h : extractStep buf = none) :
    extractAll buf = ([], buf) := extractAllFuel_none h _

theorem extractAll_some {buf f rest : List Nat}
    (h : extractStep buf = some (f, rest)) :
    extractAll buf = (f :: (extractAll rest).1, (extractAll rest).2) := by
  have hlt := extractStep_length_lt h
  unfold extractAll
  cases hl : buf.length with
  | zero =>
    exfalso
    omega
  | succ n =>
    simp only [extractAllFuel, h]
    rw [extractAllFuel_congr n rest.length rest (by omega) le_rfl]

/-- The residual buffer left by the extraction loop contains no further
complete frame. -/
theorem extractStep_extractAll_snd :
    ∀ (n : Nat) (buf : List Nat), buf.length ≤ n →
      extractStep (extractAll buf).2 = none := by
  intro n
  induction n with
  | zero =>
    intro buf h
    have hb : buf = [] := List.length_eq_zero.mp (Nat.le_zero.mp h)
    subst hb
    rw [extractAll_none extractStep_nil]
    exact extractStep_nil
  | succ m ih =>
    intro buf h
    cases hs : extractStep buf with
    | none => rw [extractAll_none hs]; exact hs
    | some p =>
      obtain ⟨f, rest⟩ := p
      have hlt := extractStep_length_lt hs
      rw [extractAll_some hs]
      exact ih rest (by omega)

/-- Appending more input to a buffer first yields exactly the frames the old
buffer already contained, then the frames of the residual buffer extended by
the new input. -/
theorem extractAll_append :
    ∀ (n : Nat) (buf t : List Nat), buf.length ≤ n →
      extractAll (buf ++ t)
        = ((extractAll buf).1 ++ (extractAll ((extractAll buf).2 ++ t)).1,
           (extractAll ((extractAll buf).2 ++ t)).2) := by
  intro n
  induction n with
  | zero =>
    intro buf t h
    have hb : buf = [] := List.length_eq_zero.mp (Nat.le_zero.mp h)
    subst hb
    rw [extractAll_none extractStep_nil]
    simp
  | succ m ih =>
    intro buf t h
    cases hs : extractStep buf with
    | none =>
      rw [extractAll_none hs]
      simp
    | some p =>
      obtain ⟨f, rest⟩ := p
      have hlt := extractStep_length_lt hs
      rw [extractAll_some hs, extractAll_some (extractStep_append hs t),
          ih rest t (by omega)]
      simp

/-- One call of the stateful frame extractor: append the chunk to the
accumulation buffer, then run the extraction loop (src/ef.py:585-595). -/
def feed (st chunk : List Nat) : List (List Nat) × List Nat :=
  extractAll (st ++ chunk)

/-- Feeding a sequence of chunks one at a time, collecting all emitted
frames in order, starting from accumulation buffer st. -/
def feedAll (st : List Nat) : List (List Nat) → List (List Nat) × List Nat
  | [] => ([], st)
  | c :: cs =>
    let p := feed st c
    let q := feedAll p.2 cs
    (p.1 ++ q.1, q.2)

theorem feedAll_eq :
    ∀ (cs : List (List Nat)) (st : List Nat), extractStep st = none →
      feedAll st cs = extractAll (st ++ cs.flatten) := by
  intro cs
  induction cs with
  | nil =>
    intro st h
    rw [feedAll]
    simp only [List.flatten_nil, List.append_nil]
    rw [extractAll_none h]
  | cons c cs ih =>
    intro st h
    rw [feedAll]
    simp only [feed]
    rw [ih (extractAll (st ++ c)).2
        (extractStep_extractAll_snd (st ++ c).length _ le_rfl)]
    rw [List.flatten_cons, ← List.append_assoc]
    rw [extractAll_append (st ++ c).length (st ++ c) cs.flatten le_rfl]

/-- Bespoke drop lemma: dropping past a block and a marker pair. -/
theorem drop_block_pair (g : List Nat) (a b : Nat) :
    ∀ l : List Nat, (g ++ a :: b :: l).drop (g.length + 2) = l := by
  induction g with
  | nil => intro l; rfl
  | cons x g ih =>
    intro l
    rw [List.cons_append, List.length_cons,
        show g.length + 1 + 2 = (g.length + 2) + 1 from by omega,
        List.drop_succ_cons, ih]

/-- Bespoke take lemma: taking a block plus a marker pair. -/
theorem take_block_pair (A : List Nat) (a b : Nat) :
    ∀ l : List Nat, (A ++ a :: b :: l).take (A.length + 2) = A ++ [a, b] := by
  induction A with
  | nil => intro l; rfl
  | cons x A ih =>
    intro l
    rw [List.cons_append, List.length_cons,
        show A.length + 1 + 2 = (A.length + 2) + 1 from by omega,
        List.take_succ_cons, ih, List.cons_append]

/-- On a buffer of shape garbage ++ SOI ++ A ++ EOI ++ tail, where neither the
garbage nor the payload contains the byte 0xFF, the extraction step emits
exactly SOI ++ A ++ EOI and leaves the tail. -/
theorem extractStep_frame (g A T : List Nat)
    (hg : ∀ x ∈ g, x ≠ 255) (hA : ∀ x ∈ A, x ≠ 255) :
    extractStep (g ++ 255 :: 216 :: (A ++ 255 :: 217 :: T))
      = some (255 :: 216 :: (A ++ [255, 217]), T) := by
  have hsoi : findPair 255 216 (g ++ 255 :: 216 :: (A ++ 255 :: 217 :: T))
      = some g.length := by
    rw [findPair_append_left g hg, findPair_head]
    simp
  have hdrop : (g ++ 255 :: 216 :: (A ++ 255 :: 217 :: T)).drop (g.length + 2)
      = A ++ 255 :: 217 :: T := drop_block_pair g 255 216 _
  have heoi : findPair 255 217 (A ++ 255 :: 217 :: T) = some A.length := by
    rw [findPair_append_left A hA, findPair_head]
    simp
  simp only [extractStep, hsoi, hdrop, heoi]
  rw [List.drop_left]
  rw [show A.length + 4 = (A.length + 2) + 1 + 1 from by omega,
      List.take_succ_cons, List.take_succ_cons, take_block_pair]
  rw [show g.length + 2 + A.length + 2 = (g.length + 2) + (A.length + 2) from by omega,
      ← List.drop_drop, hdrop, drop_block_pair]

/-- Structural description of a found marker pair: the buffer splits into a
marker-free-so-far part of length i, the pair, and the remainder. -/
theorem findPair_spec {m0 m1 : Nat} :
    ∀ {l : List Nat} {i : Nat}, findPair m0 m1 l = some i →
      ∃ p q, l = p ++ m0 :: m1 :: q ∧ p.length = i := by
  intro l
  induction l with
  | nil => intro i h; simp [findPair] at h
  | cons a rest ih =>
    intro i h
    rw [findPair] at h
    split at h
    · rename_i hc
      injection h with h
      subst h
      obtain ⟨ha, hh⟩ := hc
      subst ha
      cases rest with
      | nil => simp at hh
      | cons b r =>
        simp only [List.head?_cons, Option.some.injEq] at hh
        subst hh
        exact ⟨[], r, rfl, rfl⟩
    · obtain ⟨j, hj, rfl⟩ := Option.map_eq_some'.mp h
      obtain ⟨p, q, hpq, hlen⟩ := ih hj
      exact ⟨a :: p, q, by rw [hpq, List.cons_append], by simp [hlen]⟩

/-- Whenever the extraction step finds a frame, the frame is an SOI..EOI span
and the buffer loses exactly the bytes through that frame's EOI marker: the
old buffer is the deleted part (garbage plus frame) followed by the kept
remainder. -/
theorem extractStep_some_decomp {buf f rest : List Nat}
    (h : extractStep buf = some (f, rest)) :
    ∃ pre mid, f = 255 :: 216 :: (mid ++ [255, 217]) ∧ buf = pre ++ f ++ rest := by
  unfold extractStep at h
  split at h
  · exact absurd h (by simp)
  · rename_i s hs
    split at h
    · exact absurd h (by simp)
    · rename_i e0 he
      injection h with h
      injection h with h1 h2
      obtain ⟨p, q, hpq, hplen⟩ := findPair_spec hs
      subst hpq
      subst hplen
      have hdq : (p ++ 255 :: 216 :: q).drop (p.length + 2) = q :=
        drop_block_pair p 255 216 q
      rw [hdq] at he
      obtain ⟨p2, q2, hq, hp2len⟩ := findPair_spec he
      subst hq
      subst hp2len
      rw [List.drop_left] at h1
      rw [show p.length + 2 + p2.length + 2 = (p.length + 2) + (p2.length + 2)
            from by omega,
          ← List.drop_drop, drop_block_pair, drop_block_pair] at h2
      rw [show p2.length + 4 = (p2.length + 2) + 1 + 1 from by omega,
          List.take_succ_cons, List.take_succ_cons, take_block_pair] at h1
      refine ⟨p, p2, h1.symm, ?_⟩
      rw [← h1, ← h2]
      simp

/-- C1.  For every byte string and every way of splitting it into chunks,
feeding the FrameExtractor of generate (src/ef.py:578-636) the chunks one at
a time produces the same ordered sequence of JPEG frames (and the same final
buffer) as feeding the whole byte string as a single chunk. -/
theorem frameExtractor_chunk_boundary_independence (chunks : List (List Nat)) :
    feedAll [] chunks = feed [] chunks.flatten :=
  feedAll_eq chunks [] extractStep_nil

/-- C2.  A buffer garbage ++ SOI ++ A ++ EOI ++ SOI ++ B ++ EOI in which the
garbage and the payloads contain none of the marker bytes 0xFF, 0xD8, 0xD9
yields exactly the two frames SOI ++ A ++ EOI and SOI ++ B ++ EOI in that
order, and the buffer (leading garbage included) is emptied. -/
theorem frameExtractor_two_frames_after_garbage (g A B : List Nat)
    (hg : ∀ x ∈ g, x ≠ 255 ∧ x ≠ 216 ∧ x ≠ 217)
    (hA : ∀ x ∈ A, x ≠ 255 ∧ x ≠ 216 ∧ x ≠ 217)
    (hB : ∀ x ∈ B, x ≠ 255 ∧ x ≠ 216 ∧ x ≠ 217) :
    feed [] (g ++ ([255, 216] ++ A ++ [255, 217]) ++ ([255, 216] ++ B ++ [255, 217]))
      = ([[255, 216] ++ A ++ [255, 217], [255, 216] ++ B ++ [255, 217]], []) := by
  have hg' : ∀ x ∈ g, x ≠ 255 := fun x hx => (hg x hx).1
  have hA' : ∀ x ∈ A, x ≠ 255 := fun x hx => (hA x hx).1
  have hB' : ∀ x ∈ B, x ≠ 255 := fun x hx => (hB x hx).1
  have e1 := extractStep_frame g A (255 :: 216 :: (B ++ 255 :: 217 :: [])) hg' hA'
  have e2 : extractStep (255 :: 216 :: (B ++ 255 :: 217 :: []))
      = some (255 :: 216 :: (B ++ [255, 217]), ([] : List Nat)) := by
    have := extractStep_frame [] B [] (by simp) hB'
    simpa using this
  have hbuf : ([] : List Nat)
        ++ (g ++ ([255, 216] ++ A ++ [255, 217]) ++ ([255, 216] ++ B ++ [255, 217]))
      = g ++ 255 :: 216 :: (A ++ 255 :: 217 :: (255 :: 216 :: (B ++ 255 :: 217 :: []))) := by
    simp
  unfold feed
  rw [hbuf, extractAll_some e1, extractAll_some e2, extractAll_none extractStep_nil]
  simp

theorem frameExtractor_two_frames_after_garbage_witness :
    feed [] ([9] ++ ([255, 216] ++ [1] ++ [255, 217]) ++ ([255, 216] ++ [2] ++ [255, 217]))
      = ([[255, 216] ++ [1] ++ [255, 217], [255, 216] ++ [2] ++ [255, 217]], []) :=
  frameExtractor_two_frames_after_garbage [9] [1] [2]
    (by decide) (by decide) (by decide)

/-- C10.  The accumulation buffer shrinks only when a complete SOI..EOI frame
is found, in which case exactly the bytes through that frame's EOI marker are
deleted; when no complete frame is present nothing is removed (garbage and
partial frames are retained in full); and since feed never fails and imposes
no size cap, an upstream that never completes a frame grows the buffer
without bound (one byte per [0] chunk, linearly in the number of chunks). -/
theorem frameBuffer_shrinks_only_on_complete_frame :
    (∀ st chunk : List Nat, extractStep (st ++ chunk) = none →
        feed st chunk = ([], st ++ chunk))
    ∧ (∀ buf f rest : List Nat, extractStep buf = some (f, rest) →
        ∃ pre mid, f = 255 :: 216 :: (mid ++ [255, 217]) ∧ buf = pre ++ f ++ rest)
    ∧ (∀ n : Nat, ((feedAll [] (List.replicate n [0])).2).length = n) := by
  refine ⟨?_, ?_, ?_⟩
  · intro st chunk h
    unfold feed
    exact extractAll_none h
  · intro buf f rest h
    exact extractStep_some_decomp h
  · intro n
    have hflat : (List.replicate n ([0] : List Nat)).flatten = List.replicate n 0 := by
      induction n with
      | zero => rfl
      | succ m ih => simp [List.replicate_succ, ih]
    have hnone : extractStep (List.replicate n (0 : Nat)) = none := by
      unfold extractStep
      rw [findPair_eq_none (fun x hx => by
        have := List.eq_of_mem_replicate hx
        omega)]
    rw [feedAll_eq _ [] extractStep_nil, List.nil_append, hflat,
        extractAll_none hnone]
    simp

theorem frameBuffer_shrinks_only_on_complete_frame_witness :
    feed [0] [1] = ([], [0, 1])
    ∧ ((feedAll [] (List.replicate 5 [0])).2).length = 5 :=
  ⟨by simpa using frameBuffer_shrinks_only_on_complete_frame.1 [0] [1] (by decide),
   frameBuffer_shrinks_only_on_complete_frame.2.2 5⟩

/-- Outcome of the per-frame rate control: emit now, drop the frame, or
sleep for a duration and then emit. -/
inductive RateDecision where
  | emit
  | drop
  | delayThenEmit (d : ℚ)
deriving DecidableEq

/-- frame_interval = (1.0 / float(fps_limit)) if fps_limit else 0.0
(src/ef.py:554); a missing or zero fps_limit is falsy in Python. -/
def frameIntervalOf (fpsLimit : Option ℚ) : ℚ :=
  match fpsLimit with
  | none => 0
  | some f => if f = 0 then 0 else 1 / f

/-- Rate control of the frame relay generate (src/ef.py:596-608 and 626):
inside one loop iteration, with delta = now - last_sent: no limiting when
the interval is not positive; when the frame arrives early, latest drops it
(continue, last_sent untouched), oldest and the default both sleep
interval - delta and emit; last_sent is then set to the post-sleep
wall-clock time.  Sleeping d advances the clock by d; the decision is
returned with the updated last_sent. -/
def generateRateStep (frameInterval : ℚ) (dropStrategy : String)
    (lastSent now : ℚ) : RateDecision × ℚ :=
  if 0 < frameInterval then
    if now - lastSent < frameInterval then
      if dropStrategy = "latest" then (.drop, lastSent)
      else if dropStrategy = "oldest" then
        (.delayThenEmit (frameInterval - (now - lastSent)),
         now + (frameInterval - (now - lastSent)))
      else
        (.delayThenEmit (frameInterval - (now - lastSent)),
         now + (frameInterval - (now - lastSent)))
    else (.emit, now)
  else (.emit, now)

/-- Emission times of a run of the generate rate control over a list of
frame-arrival times, starting from a given last_sent. -/
def generateRateRun (interval : ℚ) (strategy : String) :
    ℚ → List ℚ → List ℚ
  | _, [] => []
  | lastSent, now :: rest =>
    if (generateRateStep interval strategy lastSent now).1 = RateDecision.drop then
      generateRateRun interval strategy lastSent rest
    else
      (generateRateStep interval strategy lastSent now).2
        :: generateRateRun interval strategy
            (generateRateStep interval strategy lastSent now).2 rest

theorem generateRateStep_wait (interval lastSent now : ℚ) (hpos : 0 < interval)
    (h : now - lastSent < interval) :
    generateRateStep interval "none" lastSent now
      = (.delayThenEmit (interval - (now - lastSent)), lastSent + interval) := by
  unfold generateRateStep
  rw [if_pos hpos, if_pos h,
      if_neg (show ¬("none" : String) = "latest" from by decide),
      if_neg (show ¬("none" : String) = "oldest" from by decide),
      show now + (interval - (now - lastSent)) = lastSent + interval from by ring]

theorem generateRateStep_emit (interval lastSent now : ℚ) (hpos : 0 < interval)
    (h : ¬now - lastSent < interval) :
    generateRateStep interval "none" lastSent now = (.emit, now) := by
  unfold generateRateStep
  rw [if_pos hpos, if_neg h]

/-- Under the default policy, consecutive emission times are always at least
one interval apart. -/
theorem generateRateRun_chain (interval : ℚ) (hpos : 0 < interval) :
    ∀ (arrivals : List ℚ) (lastSent : ℚ),
      List.Chain (fun a b => a + interval ≤ b) lastSent
        (generateRateRun interval "none" lastSent arrivals) := by
  intro arrivals
  induction arrivals with
  | nil => intro lastSent; exact List.Chain.nil
  | cons now rest ih =>
    intro lastSent
    by_cases h : now - lastSent < interval
    · rw [generateRateRun]
      simp only [generateRateStep_wait interval lastSent now hpos h]
      rw [if_neg (by simp)]
      exact List.Chain.cons le_rfl (ih _)
    · rw [generateRateRun]
      simp only [generateRateStep_emit interval lastSent now hpos h]
      rw [if_neg (by simp)]
      push_neg at h
      exact List.Chain.cons (by linarith) (ih _)

/-- C3.  Under the WaitToPace default (drop_strategy "none", the default of
the stream route) with a positive target fps and interval 1/fps, the rate
control of generate never emits two consecutive frames less than one
interval apart; whenever the elapsed time since the last emission is below
the interval it delays for interval - elapsed before emitting and sets
last_sent to the post-delay time, and otherwise it emits immediately. -/
theorem rateGovernor_waitToPace_paces (fps lastSent now : ℚ) (arrivals : List ℚ)
    (hfps : 0 < fps) :
    frameIntervalOf (some fps) = 1 / fps
    ∧ (now - lastSent < 1 / fps →
        generateRateStep (1 / fps) "none" lastSent now
          = (.delayThenEmit (1 / fps - (now - lastSent)), lastSent + 1 / fps))
    ∧ (1 / fps ≤ now - lastSent →
        generateRateStep (1 / fps) "none" lastSent now = (.emit, now))
    ∧ List.Chain (fun a b => a + 1 / fps ≤ b) lastSent
        (generateRateRun (1 / fps) "none" lastSent arrivals) := by
  have hpos : 0 < 1 / fps := by positivity
  refine ⟨?_, ?_, ?_, ?_⟩
  · simp [frameIntervalOf, ne_of_gt hfps]
  · intro h
    exact generateRateStep_wait _ _ _ hpos h
  · intro h
    exact generateRateStep_emit _ _ _ hpos (by linarith)
  · exact generateRateRun_chain _ hpos arrivals lastSent

theorem rateGovernor_waitToPace_paces_witness :
    generateRateStep (1 / 10 : ℚ) "none" 0 (1 / 20)
      = (.delayThenEmit (1 / 10 - (1 / 20 - 0)), 0 + 1 / 10) :=
  (rateGovernor_waitToPace_paces 10 0 (1 / 20) [] (by norm_num)).2.1 (by norm_num)

/-- Rate control of the chunk relay stream_with_fps_limit in
src/fastapi_viewer.py:103-123 (same control flow as
DroidCamStreamer.stream_with_fps_limit, src/ef.py:179-203, up to the
quality multiplier): a falsy fps_limit (absent or zero) means no limiting
and last_frame_time is not touched; when the chunk arrives early, both
latest and oldest skip it (continue) leaving last_frame_time unchanged,
and the default sleeps the remainder when positive; every non-skipped
chunk sets last_frame_time to the post-sleep wall-clock time. -/
def fvRateStep (fpsLimit : Option ℚ) (dropStrategy : String)
    (lastFrameTime now : ℚ) : RateDecision × ℚ :=
  match fpsLimit with
  | none => (.emit, lastFrameTime)
  | some f =>
    if f = 0 then (.emit, lastFrameTime)
    else
      if now - lastFrameTime < 1 / f then
        if dropStrategy = "latest" then (.drop, lastFrameTime)
        else if dropStrategy = "oldest" then (.drop, lastFrameTime)
        else if 0 < 1 / f - (now - lastFrameTime) then
          (.delayThenEmit (1 / f - (now - lastFrameTime)),
           now + (1 / f - (now - lastFrameTime)))
        else (.emit, now)
      else (.emit, now)

/-- C4 counterexample.  In the frame relay generate (src/ef.py:597-608) a
frame arriving after half the 100ms interval is delayed and emitted under
drop_strategy oldest but dropped under latest: the two policies are not
observably identical there, and oldest does not discard the frame. -/
theorem dropOldest_counterexample :
    (generateRateStep (1 / 10 : ℚ) "oldest" 0 (1 / 20)).1
        = RateDecision.delayThenEmit (1 / 20)
    ∧ (generateRateStep (1 / 10 : ℚ) "latest" 0 (1 / 20)).1 = RateDecision.drop
    ∧ generateRateStep (1 / 10 : ℚ) "oldest" 0 (1 / 20)
        ≠ generateRateStep (1 / 10 : ℚ) "latest" 0 (1 / 20) := by
  have h1 : ("oldest" : String) ≠ "latest" := by decide
  refine ⟨?_, ?_, ?_⟩ <;> norm_num [generateRateStep, h1]

/-- C4 amended.  In the chunk relay (fastapi_viewer.stream_with_fps_limit)
DropOldest is observably identical to DropLatest on every input: an early
chunk is discarded without buffering and last_frame_time is unchanged.  In
the frame relay (ef.py generate) DropOldest instead coincides with the
WaitToPace default on every input: the early frame is delayed by
interval - elapsed and emitted, not discarded. -/
theorem dropOldest_semantics :
    (∀ (fpsLimit : Option ℚ) (lastFrameTime now : ℚ),
        fvRateStep fpsLimit "oldest" lastFrameTime now
          = fvRateStep fpsLimit "latest" lastFrameTime now)
    ∧ (∀ interval lastSent now : ℚ,
        generateRateStep interval "oldest" lastSent now
          = generateRateStep interval "none" lastSent now)
    ∧ fvRateStep (some 10) "oldest" 0 (1 / 20) = (.drop, 0) := by
  have h1 : ("oldest" : String) ≠ "latest" := by decide
  have h2 : ("none" : String) ≠ "latest" := by decide
  have h3 : ("none" : String) ≠ "oldest" := by decide
  refine ⟨?_, ?_, ?_⟩
  · intro fpsLimit lastFrameTime now
    cases fpsLimit with
    | none => rfl
    | some f => simp [fvRateStep, h1]
  · intro interval lastSent now
    simp [generateRateStep, h1, h2, h3]
  · norm_num [fvRateStep, h1]

/-- pat is an initial segment of l. -/
def leadsWith : List Char → List Char → Bool
  | [], _ => true
  | _ :: _, [] => false
  | a :: p, b :: l => a == b && leadsWith p l

/-- Python substring containment pat in s over character lists. -/
def containsSeq (pat : List Char) : List Char → Bool
  | [] => leadsWith pat []
  | b :: l => leadsWith pat (b :: l) || containsSeq pat l

/-- Python membership test sub in s on strings. -/
def strContains (s sub : String) : Bool := containsSeq sub.data s.data

/-- Python str.lower on one ASCII character. -/
def lowerChar (c : Char) : Char :=
  if 65 ≤ c.toNat ∧ c.toNat ≤ 90 then Char.ofNat (c.toNat + 32) else c

/-- Python str.lower, as applied to HTTP header values (ASCII). -/
def pyLower (s : String) : String := ⟨s.data.map lowerChar⟩

/-- An upstream HTTP response as seen by the probe: status code and raw
content-type header (empty string when the header is absent). -/
structure HttpResponse where
  status : Nat
  contentType : String

/-- The lowercased content-type names an MJPEG stream
(src/ef.py:96-97, 155-158): it contains multipart/x-mixed-replace or
image/jpeg. -/
def mjpegContentType (ct : String) : Bool :=
  strContains (pyLower ct) "multipart/x-mixed-replace"
    || strContains (pyLower ct) "image/jpeg"

/-- Classification of one endpoint by DroidCamStreamer.scan_endpoints
(src/ef.py:93-108): only the lowercased content-type header is consulted;
the status code is recorded in the result but plays no part in the
classification, and the error status is produced only on a raised
exception, never for a response. -/
def scanClassify (resp : HttpResponse) : String :=
  if mjpegContentType resp.contentType then "available" else "not_mjpeg"

/-- Availability flag of the scanner in src/cv.py:285-290: a probed
endpoint is available exactly when the status code is 200, its
content-type notwithstanding. -/
def cvAvailable (resp : HttpResponse) : Bool := resp.status == 200

/-- C5 counterexample.  The ef.py probe classifies by content type alone: a
response with status 500 and content-type image/jpeg is classified
available, so availability does not require status 200; and the cv.py
scanner marks a 200 text/html response available, so a 200 text/html
response is not kept out of Available everywhere. -/
theorem endpointProbe_counterexample :
    scanClassify ⟨500, "image/jpeg"⟩ = "available"
    ∧ cvAvailable ⟨200, "text/html"⟩ = true := by
  constructor
  · decide
  · decide

/-- C5 amended.  In the ef.py probe, availability holds exactly when the
lowercased content type contains multipart/x-mixed-replace or image/jpeg,
regardless of the status code; any response whose content type is
text/html (in particular a 200 one) is classified not_mjpeg — never
available and never the exception-only error status.  The cv.py scanner
instead marks available exactly the status-200 responses. -/
theorem endpointProbe_classification :
    (∀ resp : HttpResponse,
        (scanClassify resp = "available" ↔ mjpegContentType resp.contentType = true)
        ∧ scanClassify resp ≠ "error")
    ∧ (∀ st : Nat, scanClassify ⟨st, "text/html"⟩ = "not_mjpeg")
    ∧ (∀ resp : HttpResponse, cvAvailable resp = (resp.status == 200)) := by
  refine ⟨?_, ?_, ?_⟩
  · intro resp
    unfold scanClassify
    by_cases h : mjpegContentType resp.contentType
    · rw [if_pos h]
      exact ⟨by simp [h], by decide⟩
    · rw [if_neg h]
      constructor
      · constructor
        · intro hc
          exact absurd hc (by decide)
        · intro hc
          exact absurd hc (by simpa using h)
      · decide
  · intro st
    simp [scanClassify, show mjpegContentType "text/html" = false from by decide]
  · intro resp
    rfl

/-- Decimal digits (most significant first) of a natural number, as str(n)
renders it; fuelled structural recursion, n + 1 steps always suffice. -/
def decDigitsFuel : Nat → Nat → List Nat
  | 0, _ => []
  | fuel + 1, n => if n < 10 then [n] else decDigitsFuel fuel (n / 10) ++ [n % 10]

/-- Decimal digit list of str(n). -/
def decDigits (n : Nat) : List Nat := decDigitsFuel (n + 1) n

/-- Numeric value of a most-significant-first decimal digit list, i.e. what
an HTTP client parsing the Content-Length header computes. -/
def decodeDec (ds : List Nat) : Nat := ds.foldl (fun a d => a * 10 + d) 0

theorem decodeDec_append (ds : List Nat) (d : Nat) :
    decodeDec (ds ++ [d]) = decodeDec ds * 10 + d := by
  simp [decodeDec, List.foldl_append]

theorem decodeDec_decDigitsFuel :
    ∀ (fuel n : Nat), n < fuel → decodeDec (decDigitsFuel fuel n) = n := by
  intro fuel
  induction fuel with
  | zero => intro n h; omega
  | succ k ih =>
    intro n h
    rw [decDigitsFuel]
    by_cases h10 : n < 10
    · rw [if_pos h10]
      simp [decodeDec]
    · rw [if_neg h10, decodeDec_append, ih (n / 10) (by omega)]
      omega

/-- The decimal rendering of a length decodes back to that length. -/
theorem decodeDec_decDigits (n : Nat) : decodeDec (decDigits n) = n :=
  decodeDec_decDigitsFuel (n + 1) n (by omega)

/-- ASCII code points of a header string, as bytes. -/
def strBytes (s : String) : List Nat := s.data.map Char.toNat

/-- One multipart part as written by generate (src/ef.py:629-634): the fixed
boundary token, the Content-Type header, a Content-Length header whose value
is the decimal rendering str(len(frame_bytes)) of the payload length
(digits ASCII-encoded by adding 48), a blank line, the payload, and the
terminating CRLF. -/
def mkPart (payload : List Nat) : List Nat :=
  strBytes "--frame\r\nContent-Type: image/jpeg\r\nContent-Length: "
    ++ (decDigits payload.length).map (· + 48)
    ++ strBytes "\r\n\r\n"
    ++ payload
    ++ strBytes "\r\n"

/-- The optional per-frame transcoding stage of generate
(src/ef.py:610-623), the OpenCV codec passed in as parameters: when a
resize is requested or the quality preset is a quality_map key, decode the
JPEG; a failed decode falls back to forwarding the original bytes;
otherwise resize if requested and re-encode at the configured JPEG quality,
keeping the original bytes when the encoder reports failure. -/
def transcodeFrame {Img : Type} (imdecode : List Nat → Option Img)
    (resize : Img → Nat × Nat → Img) (imencode : Img → Nat → Option (List Nat))
    (targetSize : Option (Nat × Nat)) (quality : String) (jpegQuality : Nat)
    (frameBytes : List Nat) : List Nat :=
  if targetSize.isSome ∨ quality ∈ ["high", "medium", "low"] then
    match imdecode frameBytes with
    | none => frameBytes
    | some img =>
      match imencode (match targetSize with
        | some ts => resize img ts
        | none => img) jpegQuality with
      | some enc => enc
      | none => frameBytes
  else frameBytes

/-- The per-frame tail of the generate loop (src/ef.py:596-634) over the
extracted frames paired with their arrival times: consult the rate control,
drop the frame or (after the optional delay) transcode it and write one
multipart part, threading last_sent through. -/
def generateStream {Img : Type} (imdecode : List Nat → Option Img)
    (resize : Img → Nat × Nat → Img) (imencode : Img → Nat → Option (List Nat))
    (targetSize : Option (Nat × Nat)) (quality : String) (jpegQuality : Nat)
    (frameInterval : ℚ) (dropStrategy : String) :
    ℚ → List (ℚ × List Nat) → List (List Nat)
  | _, [] => []
  | lastSent, (now, frameBytes) :: rest =>
    if (generateRateStep frameInterval dropStrategy lastSent now).1
        = RateDecision.drop then
      generateStream imdecode resize imencode targetSize quality jpegQuality
        frameInterval dropStrategy lastSent rest
    else
      mkPart (transcodeFrame imdecode resize imencode targetSize quality
          jpegQuality frameBytes)
        :: generateStream imdecode resize imencode targetSize quality
            jpegQuality frameInterval dropStrategy
            (generateRateStep frameInterval dropStrategy lastSent now).2 rest

/-- C6.  Every multipart part written downstream by the relay is the fixed
boundary token, the Content-Type: image/jpeg header, and a Content-Length
header whose decimal value decodes to the exact byte length of the
(possibly transcoded) payload that follows, the payload terminated by
CRLF. -/
theorem multipartPart_wellformed {Img : Type} (imdecode : List Nat → Option Img)
    (resize : Img → Nat × Nat → Img) (imencode : Img → Nat → Option (List Nat))
    (targetSize : Option (Nat × Nat)) (quality : String) (jpegQuality : Nat)
    (frameInterval : ℚ) (dropStrategy : String) (lastSent : ℚ)
    (frames : List (ℚ × List Nat)) (part : List Nat)
    (hp : part ∈ generateStream imdecode resize imencode targetSize quality
        jpegQuality frameInterval dropStrategy lastSent frames) :
    ∃ payload : List Nat,
      part = strBytes "--frame\r\nContent-Type: image/jpeg\r\nContent-Length: "
          ++ (decDigits payload.length).map (· + 48)
          ++ strBytes "\r\n\r\n" ++ payload ++ strBytes "\r\n"
        ∧ decodeDec (decDigits payload.length) = payload.length := by
  induction frames generalizing lastSent with
  | nil => simp [generateStream] at hp
  | cons fr rest ih =>
    obtain ⟨now, frameBytes⟩ := fr
    rw [generateStream] at hp
    split at hp
    · exact ih lastSent hp
    · rcases List.mem_cons.mp hp with h | h
      · exact ⟨transcodeFrame imdecode resize imencode targetSize quality
            jpegQuality frameBytes, h, decodeDec_decDigits _⟩
      · exact ih _ h

theorem multipartPart_wellformed_witness :
    ∃ payload : List Nat,
      mkPart [255, 216, 255, 217]
        = strBytes "--frame\r\nContent-Type: image/jpeg\r\nContent-Length: "
          ++ (decDigits payload.length).map (· + 48)
          ++ strBytes "\r\n\r\n" ++ payload ++ strBytes "\r\n"
        ∧ decodeDec (decDigits payload.length) = payload.length :=
  multipartPart_wellformed (fun _ => (none : Option Unit)) (fun i _ => i)
    (fun _ _ => none) none "" 85 0 "none" 0 [(0, [255, 216, 255, 217])]
    (mkPart [255, 216, 255, 217])
    (by simp [generateStream, generateRateStep, transcodeFrame])

/-- C7.  A frame whose JPEG decode fails is forwarded downstream unchanged,
and the streaming session continues: with no fps limit the relay emits
exactly one multipart part per extracted frame, whatever the decode
outcomes — a malformed frame never terminates the session. -/
theorem decodeFailure_passthrough {Img : Type} (imdecode : List Nat → Option Img)
    (resize : Img → Nat × Nat → Img) (imencode : Img → Nat → Option (List Nat))
    (targetSize : Option (Nat × Nat)) (quality : String) (jpegQuality : Nat)
    (frameBytes : List Nat) (h : imdecode frameBytes = none) :
    transcodeFrame imdecode resize imencode targetSize quality jpegQuality
        frameBytes = frameBytes
    ∧ ∀ (frames : List (ℚ × List Nat)) (lastSent : ℚ),
        (generateStream imdecode resize imencode targetSize quality jpegQuality
            0 "none" lastSent frames).length = frames.length := by
  constructor
  · unfold transcodeFrame
    split
    · rw [h]
    · rfl
  · intro frames
    induction frames with
    | nil => intro lastSent; rfl
    | cons fr rest ih =>
      intro lastSent
      obtain ⟨now, fb⟩ := fr
      have hstep : generateRateStep 0 "none" lastSent now = (.emit, now) := by
        unfold generateRateStep
        rw [if_neg (lt_irrefl 0)]
      rw [generateStream, hstep]
      rw [if_neg (by simp)]
      simp only [List.length_cons]
      rw [ih now]

theorem decodeFailure_passthrough_witness :
    transcodeFrame (fun _ : List Nat => (none : Option Unit)) (fun i _ => i)
        (fun _ _ => none) none "high" 90 [1] = [1]
    ∧ (generateStream (fun _ : List Nat => (none : Option Unit)) (fun i _ => i)
        (fun _ _ => none) none "high" 90 0 "none" 0 [(0, [1])]).length = 1 := by
  have h := decodeFailure_passthrough (fun _ : List Nat => (none : Option Unit))
    (fun i _ => i) (fun _ _ => none) none "high" 90 [1] rfl
  exact ⟨h.1, h.2 [(0, [1])] 0⟩

/-- quality_map = dict high 90, medium 75, low 60 and jpeg_quality =
quality_map.get(quality, 85) (src/ef.py:549-551). -/
def jpegQualityOf (quality : String) : Nat :=
  if quality = "high" then 90
  else if quality = "medium" then 75
  else if quality = "low" then 60
  else 85

/-- target_size parsing of stream_video (src/ef.py:540-547): None unless a
non-auto resolution splits on the letter x into two integers. -/
def targetSizeOf (resolution : String) : Option (Nat × Nat) :=
  if resolution ≠ "" ∧ pyLower resolution ≠ "auto" then
    match (pyLower resolution).splitOn "x" with
    | [w, h] =>
      match w.toNat?, h.toNat? with
      | some wn, some hn => some (wn, hn)
      | _, _ => none
    | _ => none
  else none

/-- C9 counterexample.  With the default parameters (resolution auto,
quality high) a frame that decodes successfully can still be forwarded
byte-identically, namely when the JPEG encoder reports failure: original
bytes do not pass through only on decode failure. -/
theorem transcode_passthrough_counterexample :
    (fun _ : List Nat => (some 0 : Option Nat)) [7] = some 0
    ∧ transcodeFrame (fun _ : List Nat => (some 0 : Option Nat)) (fun i _ => i)
        (fun _ _ => (none : Option (List Nat))) (targetSizeOf "auto") "high"
        (jpegQualityOf "high") [7] = [7] := by
  constructor
  · rfl
  · decide

/-- C9 amended.  With the default stream parameters (resolution auto hence
no resize, quality high hence JPEG quality 90 via the fixed map high 90,
medium 75, low 60, anything else 85) every decodable frame is decoded and
re-encoded at quality 90 — its bytes are replaced by the encoder output
whenever encoding succeeds — and the original bytes pass through unchanged
exactly when decoding fails or the encoder reports failure. -/
theorem defaultQuality_reencodes {Img : Type} (imdecode : List Nat → Option Img)
    (resize : Img → Nat × Nat → Img) (imencode : Img → Nat → Option (List Nat))
    (frameBytes : List Nat) :
    targetSizeOf "auto" = none
    ∧ jpegQualityOf "high" = 90
    ∧ jpegQualityOf "medium" = 75
    ∧ jpegQualityOf "low" = 60
    ∧ (∀ q : String, q ≠ "high" → q ≠ "medium" → q ≠ "low" →
        jpegQualityOf q = 85)
    ∧ (∀ img, imdecode frameBytes = some img →
        transcodeFrame imdecode resize imencode none "high" 90 frameBytes
          = (imencode img 90).getD frameBytes)
    ∧ (imdecode frameBytes = none →
        transcodeFrame imdecode resize imencode none "high" 90 frameBytes
          = frameBytes) := by
  refine ⟨by decide, rfl, rfl, rfl, ?_, ?_, ?_⟩
  · intro q h1 h2 h3
    simp [jpegQualityOf, h1, h2, h3]
  · intro img h
    unfold transcodeFrame
    rw [if_pos (Or.inr (by decide)), h]
    cases he : imencode img 90 <;> simp [he]
  · intro h
    unfold transcodeFrame
    rw [if_pos (Or.inr (by decide)), h]

theorem defaultQuality_reencodes_witness :
    transcodeFrame (fun _ : List Nat => some ()) (fun i _ => i)
        (fun _ _ => some [5]) none "high" 90 [7] = [5] := by
  have h := (defaultQuality_reencodes (fun _ : List Nat => some ())
      (fun i _ => i) (fun _ _ => some [5]) [7]).2.2.2.2.2.1 () rfl
  exact h

/-- Decimal string rendering of a natural number, modelling Python str(n)
inside f-strings. -/
def natStr (n : Nat) : String :=
  ⟨(decDigits n).map (fun d => Char.ofNat (d + 48))⟩

/-- The candidate endpoints tried by stream_with_fps_limit, in source order
(src/ef.py:134-141). -/
def streamEndpoints (ip : String) (port : Nat) : List String :=
  ["http://" ++ ip ++ ":" ++ natStr port ++ "/mjpegfeed",
   "http://" ++ ip ++ ":" ++ natStr port ++ "/video",
   "http://" ++ ip ++ ":" ++ natStr port ++ "/cam/1/stream",
   "http://" ++ ip ++ ":" ++ natStr port ++ "/cam/1/mjpeg",
   "http://" ++ ip ++ ":" ++ natStr port ++ "/",
   "http://" ++ ip ++ ":" ++ natStr port ++ "/stream"]

/-- What contacting one endpoint yields: a response, or a raised exception
(connection refused, timeout, ...). -/
inductive UpstreamResult where
  | response (status : Nat) (contentType : String)
  | failure
deriving DecidableEq

/-- The success test of the endpoint loop (src/ef.py:146-215): an endpoint
is streamed from exactly when the request succeeds with status 200 and an
MJPEG content type; non-200, wrong content type and exceptions all continue
to the next candidate. -/
def endpointOk (world : String → UpstreamResult) (e : String) : Bool :=
  match world e with
  | .response s ct => s == 200 && mjpegContentType ct
  | .failure => false

/-- The endpoint loop of stream_with_fps_limit: returns the endpoint
streamed from (if any) together with the list of endpoints actually
contacted, in order. -/
def tryEndpoints (world : String → UpstreamResult) :
    List String → Option String × List String
  | [] => (none, [])
  | e :: rest =>
    if endpointOk world e then (some e, [e])
    else
      ((tryEndpoints world rest).1, e :: (tryEndpoints world rest).2)

/-- The aggregate failure message raised as HTTP 503 when every candidate
fails (src/ef.py:217-220). -/
def noStreamMsg (ip : String) (port : Nat) : String :=
  "No DroidCam streams found at " ++ ip ++ ":" ++ natStr port
    ++ ". Check: 1) DroidCam app is running 2) Phone IP is correct 3) Same WiFi network"

/-- Overall outcome of the relay's endpoint selection: the chosen endpoint,
or the 503 failure message. -/
def relaySelect (world : String → UpstreamResult) (ip : String) (port : Nat) :
    Sum String String :=
  match (tryEndpoints world (streamEndpoints ip port)).1 with
  | some e => Sum.inl e
  | none => Sum.inr (noStreamMsg ip port)

/-- The endpoint loop picks the first passing candidate and contacts exactly
the failing ones before it plus, when found, the chosen one. -/
theorem tryEndpoints_eq (world : String → UpstreamResult) (eps : List String) :
    tryEndpoints world eps
      = (eps.find? (endpointOk world),
         eps.takeWhile (fun e => !endpointOk world e)
           ++ (eps.find? (endpointOk world)).toList) := by
  induction eps with
  | nil => rfl
  | cons e rest ih =>
    rw [tryEndpoints]
    by_cases h : endpointOk world e
    · rw [if_pos h]
      simp [List.find?, List.takeWhile, h]
    · rw [if_neg h, ih]
      simp [List.find?, List.takeWhile, h]

/-- C8 counterexample.  When every candidate fails, the relay raises a fixed
503 message that names only the host and port: it does not list the
individual attempts — it does not even mention the first candidate paths
tried (mjpegfeed, /video). -/
theorem endpointFailover_counterexample :
    relaySelect (fun _ => UpstreamResult.failure) "10.0.0.7" 4747
        = Sum.inr (noStreamMsg "10.0.0.7" 4747)
    ∧ strContains (noStreamMsg "10.0.0.7" 4747) "mjpegfeed" = false
    ∧ strContains (noStreamMsg "10.0.0.7" 4747) "/video" = false := by
  refine ⟨?_, ?_, ?_⟩ <;> decide

/-- C8 amended.  The relay tries the fixed candidate list in priority order
(mjpegfeed, video, cam/1/stream, cam/1/mjpeg, root, stream) and streams
from the first endpoint whose response has status 200 and an MJPEG content
type; the contacted endpoints are exactly the failing ones preceding it
plus the chosen one, so later candidates are never contacted; only when
every candidate fails is a failure returned, and it carries the fixed
host-and-port 503 message rather than a list of the attempts. -/
theorem endpointFailover :
    (∀ (ip : String) (port : Nat),
        streamEndpoints ip port
          = ["http://" ++ ip ++ ":" ++ natStr port ++ "/mjpegfeed",
             "http://" ++ ip ++ ":" ++ natStr port ++ "/video",
             "http://" ++ ip ++ ":" ++ natStr port ++ "/cam/1/stream",
             "http://" ++ ip ++ ":" ++ natStr port ++ "/cam/1/mjpeg",
             "http://" ++ ip ++ ":" ++ natStr port ++ "/",
             "http://" ++ ip ++ ":" ++ natStr port ++ "/stream"])
    ∧ (∀ (world : String → UpstreamResult) (eps : List String),
        tryEndpoints world eps
          = (eps.find? (endpointOk world),
             eps.takeWhile (fun e => !endpointOk world e)
               ++ (eps.find? (endpointOk world)).toList))
    ∧ (∀ (world : String → UpstreamResult) (eps : List String),
        (eps.takeWhile (fun e => !endpointOk world e)).all
          (fun e => !endpointOk world e) = true)
    ∧ (∀ (world : String → UpstreamResult) (ip : String) (port : Nat),
        (streamEndpoints ip port).find? (endpointOk world) = none →
          relaySelect world ip port = Sum.inr (noStreamMsg ip port)) := by
  refine ⟨fun ip port => rfl, tryEndpoints_eq, ?_, ?_⟩
  · intro world eps
    induction eps with
    | nil => rfl
    | cons e rest ih =>
      by_cases h : endpointOk world e
      · simp [List.takeWhile, h]
      · simp [List.takeWhile, h, ih]
  · intro world ip port h
    unfold relaySelect
    rw [tryEndpoints_eq world (streamEndpoints ip port), h]

theorem endpointFailover_witness :
    relaySelect (fun _ => UpstreamResult.failure) "10.0.0.5" 4747
      = Sum.inr (noStreamMsg "10.0.0.5" 4747) :=
  endpointFailover.2.2.2 (fun _ => UpstreamResult.failure) "10.0.0.5" 4747
    (by decide)

theorem endpointProbe_classification_witness :
    scanClassify ⟨404, "image/jpeg"⟩ = "available" :=
  (endpointProbe_classification.1 ⟨404, "image/jpeg"⟩).1.mpr (by decide)
